import Mathlib

/-!
Verification of the analytical core of the `ct-daily` brief server
(`src/server.js`).  The snapshot data model and every core function
(`loadScans`, `analyzeSentiment`, `getTopTickers`, `getCommodities`,
`getRegimeLabel`, `getFearLevel`, `getMomentum`, `generateNarrative`)
are shallowly embedded below, translated statement by statement from the
JavaScript source.  JavaScript numbers are modelled as `ℚ` (the source
only performs exact decimal arithmetic on counts and averages), ticker
mention counts as `ℕ`, timestamps as milliseconds in `ℤ`, with an
unparseable timestamp (`NaN` after `new Date(...).getTime()`) modelled
as `none`.  JavaScript objects used as counters are modelled as
insertion-ordered association lists, matching `Object.entries`
enumeration order, and `Array.prototype.sort` (stable in the engines the
server targets) is modelled by a stable insertion sort.
-/

set_option maxRecDepth 4000

/-- A JavaScript value that is either a number or a string; the
`analyzeSentiment` result stores numbers on the empty-input path and
formatted strings otherwise. -/
inductive JVal where
  | num : ℚ → JVal
  | str : String → JVal
deriving DecidableEq, Repr

/-- The `sentiment` sub-record of a snapshot: `{bullish, bearish}`, each field
possibly absent. -/
structure SentimentData where
  bullish : Option ℚ
  bearish : Option ℚ
deriving DecidableEq, Repr

/-- The `byCategory` sub-record of a snapshot; only the `commodities` and
`metals` keys are ever read (and, as proved below, their values never
influence any output). -/
structure ByCategory where
  commodities : Option (List (String × ℕ))
  metals : Option (List (String × ℕ))
deriving DecidableEq, Repr

/-- One scan snapshot, with the fields read by the analytical core.
`timestamp = none` models a record whose timestamp does not parse
(`new Date(...).getTime()` is `NaN`).  Absent array/object fields are
modelled by the empty list, which the source's `|| []` / `|| {}`
defaults make indistinguishable from an empty field. -/
structure Scan where
  timestamp : Option ℤ
  sentiment : Option SentimentData
  topTickers : List (String × ℕ)
  macroKeywords : List (String × ℕ)
  commodityKeywords : List (String × ℕ)
  byCategory : Option ByCategory
deriving DecidableEq, Repr

/-- A `{name, mentions}` entry as produced by `getTopTickers` and
`getCommodities`. -/
structure MentionEntry where
  name : String
  mentions : ℕ
deriving DecidableEq, Repr

/-- One entry of the `getMomentum` result. -/
structure MomentumEntry where
  ticker : String
  recentRate : String
  priorRate : String
  change : ℤ
  direction : String
deriving DecidableEq, Repr

/-- Regime classifier output `{label, emoji, color}`. -/
structure Regime where
  label : String
  emoji : String
  color : String
deriving DecidableEq, Repr

/-- Fear classifier output `{level, emoji, color}`. -/
structure Fear where
  level : String
  emoji : String
  color : String
deriving DecidableEq, Repr

/-- Sentiment summary returned by `analyzeSentiment`. -/
structure SentimentSummary where
  bull : JVal
  bear : JVal
  ratio : JVal
  trend : String
deriving DecidableEq, Repr

/-! ### JavaScript primitives used by the core -/

/-- Remove the first occurrence of character `c` from a character list;
this is `String.prototype.replace` with a one-character string pattern
and empty replacement, which replaces only the first occurrence. -/
def stripFirst (c : Char) : List Char → List Char
  | [] => []
  | x :: xs => if x = c then xs else x :: stripFirst c xs

/-- Embeds `ticker.replace('$', '')`: the symbol normalization used by the
ticker aggregator and the momentum detector. -/
def cleanTicker (s : String) : String := String.mk (stripFirst '$' s.data)

/-!
JavaScript arithmetic on numbers is ordinary `ℚ` arithmetic here, but
the Batteries implementations of `Rat.add`, `Rat.sub`, `Rat.mul` and
`Rat.inv` are `@[irreducible]`, which stops the kernel from evaluating
the embedded program on concrete inputs.  The wrappers below compute
the same values through `Rat.divInt` (which does reduce); the lemmas
`qAdd_eq`, `qSub_eq`, `qMul_eq`, `qSum_eq`, `jsDiv_eq` and `roundQ_eq`
prove each one equal to the corresponding standard operation, so every
statement about them transfers to ordinary `+`, `-`, `*`, `/`, `round`.
-/

/-- JavaScript `+` on numbers (`ℚ` addition). -/
def qAdd (a b : ℚ) : ℚ := Rat.divInt (a.num * b.den + b.num * a.den) (a.den * b.den)

/-- JavaScript `-` on numbers (`ℚ` subtraction). -/
def qSub (a b : ℚ) : ℚ := Rat.divInt (a.num * b.den - b.num * a.den) (a.den * b.den)

/-- JavaScript `*` on numbers (`ℚ` multiplication). -/
def qMul (a b : ℚ) : ℚ := Rat.divInt (a.num * b.num) (a.den * b.den)

/-- Embeds `array.reduce((s, x) => s + x, 0)`: left fold of `+` over a list,
starting from 0. -/
def qSum (l : List ℚ) : ℚ := l.foldl qAdd 0

/-- JavaScript `/` on (finite, nonzero-denominator) numbers: ordinary
field division on `ℚ`. -/
def jsDiv (a b : ℚ) : ℚ := Rat.divInt (a.num * b.den) (a.den * b.num)

/-- Round half-up (toward `+∞`), the rounding of `toFixed`; proved
equal to Mathlib's `round` in `roundQ_eq` below. -/
def roundQ (q : ℚ) : ℤ := Rat.floor (qAdd q (Rat.divInt 1 2))

/-- JavaScript `toFixed(0)` followed by numeric coercion: round to the
nearest integer, ties away from zero (`toFixed` negates first, then
rounds the magnitude half-up). -/
def jsRound (q : ℚ) : ℤ := if q < 0 then -(roundQ (-q)) else roundQ q

/-- Decimal digit string of `n`, left-padded with zeros to width `f`. -/
def padZeros (f : ℕ) (s : String) : String :=
  String.mk (List.replicate (f - s.length) '0') ++ s

/-- Embeds `toFixed(f)` on a nonnegative rational: round `x * 10^f` half-up and
print with `f` decimal places. -/
def jsToFixedNN (f : ℕ) (x : ℚ) : String :=
  let n := (roundQ (qMul x ((10 ^ f : ℕ) : ℚ))).toNat
  if f = 0 then toString n
  else toString (n / 10 ^ f) ++ "." ++ padZeros f (toString (n % 10 ^ f))

/-- JavaScript `Number.prototype.toFixed(f)`. -/
def jsToFixed (f : ℕ) (x : ℚ) : String :=
  if x < 0 then "-" ++ jsToFixedNN f (-x) else jsToFixedNN f x

/-- Value of a decimal digit list (most significant first). -/
def digitsVal (l : List Char) : ℕ :=
  l.foldl (fun n c => n * 10 + (c.toNat - ('0').toNat)) 0

/-- The fragment of JavaScript `parseFloat` exercised by this program:
an optional sign followed by a decimal literal (`digits`, `digits.digits`
or `.digits`), parsed as a longest prefix; `none` models `NaN`.  Every
ratio string the program produces (`toFixed(2)` output, `"0"`, or the
infinity marker) is parsed exactly by this fragment. -/
def parseFloatStr (s : String) : Option ℚ :=
  let signRest : ℚ × List Char :=
    match s.data with
    | '-' :: r => (-1, r)
    | '+' :: r => (1, r)
    | r => (1, r)
  let intSpan := signRest.2.span Char.isDigit
  let fracDigits : List Char :=
    match intSpan.2 with
    | '.' :: r => (r.span Char.isDigit).1
    | _ => []
  if intSpan.1 = [] ∧ fracDigits = [] then none
  else some (qMul signRest.1
    (qAdd (digitsVal intSpan.1 : ℚ)
      (jsDiv (digitsVal fracDigits : ℚ) ((10 ^ fracDigits.length : ℕ) : ℚ))))

/-- Embeds `parseFloat` applied to a dynamically typed value: a number is
stringified and re-parsed, which is the identity on the numbers this
program produces; a string goes through `parseFloatStr`. -/
def parseFloatJ : JVal → Option ℚ
  | JVal.num q => some q
  | JVal.str s => parseFloatStr s

/-- Embeds `x >= c` where `x` may be `NaN` (`none`): every comparison with
`NaN` is false. -/
def jsGEq : Option ℚ → ℚ → Bool
  | none, _ => false
  | some a, b => decide (b ≤ a)

/-- Embeds `ts >= cutoff` on two date values, false when either is `NaN`. -/
def jsTsGE : Option ℤ → Option ℤ → Bool
  | some a, some b => decide (b ≤ a)
  | _, _ => false

/-! ### Insertion-ordered counter objects -/

/-- Embeds `counts[k] = (counts[k] || 0) + c` on an insertion-ordered
association list: update the first binding of `k` in place, or append a
new binding at the end (JavaScript object key insertion order). -/
def addCount : List (String × ℕ) → String → ℕ → List (String × ℕ)
  | [], k, c => [(k, c)]
  | (k', c') :: rest, k, c =>
      if k' = k then (k', c' + c) :: rest
      else (k', c') :: addCount rest k c

/-- Embeds `m[k] || 0`: the count bound to `k`, or `0`. -/
def lookCount : List (String × ℕ) → String → ℕ
  | [], _ => 0
  | (k', c) :: rest, k => if k' = k then c else lookCount rest k

/-- Fold a list of `(symbol, count)` pairs into a counter, normalizing
each symbol with `cleanTicker` — the loop body shared by
`getTopTickers` and `getMomentum`. -/
def tallyPairs (m : List (String × ℕ)) (ps : List (String × ℕ)) : List (String × ℕ) :=
  ps.foldl (fun m p => addCount m (cleanTicker p.1) p.2) m

/-- Embeds the `new Set([...])` construction order: keep the first occurrence of
each element. -/
def dedupKeep (seen : List String) : List String → List String
  | [] => []
  | x :: xs => if x ∈ seen then dedupKeep seen xs else x :: dedupKeep (x :: seen) xs

/-- Keys of a JavaScript `Set` built from a list: first occurrences, in
order. -/
def firstDedup (l : List String) : List String := dedupKeep [] l

/-! ### Stable sorts (Array.prototype.sort with a consistent comparator) -/

/-- Insert `e` into `l` before the first element with a strictly smaller
key: stable descending insertion. -/
def insertDescBy {α : Type} {β : Type} [LinearOrder β] (key : α → β) (e : α) :
    List α → List α
  | [] => [e]
  | x :: xs => if key x < key e then e :: x :: xs else x :: insertDescBy key e xs

/-- Stable sort by descending key. -/
def sortDescBy {α : Type} {β : Type} [LinearOrder β] (key : α → β) : List α → List α
  | [] => []
  | x :: xs => insertDescBy key x (sortDescBy key xs)

/-- Insert `e` into `l` before the first element with a strictly larger
key: stable ascending insertion. -/
def insertAscBy {α : Type} {β : Type} [LinearOrder β] (key : α → β) (e : α) :
    List α → List α
  | [] => [e]
  | x :: xs => if key e < key x then e :: x :: xs else x :: insertAscBy key e xs

/-- Stable sort by ascending key. -/
def sortAscBy {α : Type} {β : Type} [LinearOrder β] (key : α → β) : List α → List α
  | [] => []
  | x :: xs => insertAscBy key x (sortAscBy key xs)

/-! ### The core functions, translated from `src/server.js` -/

/-- Sort key used when ordering scans: the parsed timestamp (every scan
that reaches a sort has a parseable timestamp, so the `0` default is
never compared). -/
def tsKey (s : Scan) : ℤ := s.timestamp.getD 0

/-- Embeds `loadScans(hoursBack)` minus the file-system plumbing: given the
current time, the window size in hours and the successfully JSON-parsed
records, keep those whose timestamp parses and is at or after
`now - hoursBack` hours, sorted ascending by timestamp. -/
def loadScans (now hoursBack : ℤ) (records : List Scan) : List Scan :=
  let cutoff := now - hoursBack * (60 * 60 * 1000)
  sortAscBy tsKey (records.filter (fun s => jsTsGE s.timestamp (some cutoff)))

/-- Embeds `d.sentiment?.bullish || 0`. -/
def bullishOf (d : Scan) : ℚ := (d.sentiment.bind SentimentData.bullish).getD 0

/-- Embeds `d.sentiment?.bearish || 0`. -/
def bearishOf (d : Scan) : ℚ := (d.sentiment.bind SentimentData.bearish).getD 0

/-- The three-character string the source stores for an infinite ratio
(the file is mojibake-encoded; these are the literal code points). -/
def infinitySym : String := "‚àû"

/-- Embeds `analyzeSentiment(scans)`. -/
def analyzeSentiment (scans : List Scan) : SentimentSummary :=
  if scans.length = 0 then
    ⟨JVal.num 0, JVal.num 0, JVal.num 0, "UNKNOWN"⟩
  else
    let n : ℚ := scans.length
    let bull := jsDiv (qSum (scans.map bullishOf)) n
    let bear := jsDiv (qSum (scans.map bearishOf)) n
    let ratio : JVal :=
      if 0 < bear then JVal.str (jsToFixed 2 (jsDiv bull bear))
      else if 0 < bull then JVal.str infinitySym
      else JVal.str "0"
    let mid := scans.length / 2
    let firstHalf := scans.take mid
    let secondHalf := scans.drop mid
    let firstBull := jsDiv (qSum (firstHalf.map bullishOf))
      (if firstHalf.length = 0 then 1 else (firstHalf.length : ℚ))
    let secondBull := jsDiv (qSum (secondHalf.map bullishOf))
      (if secondHalf.length = 0 then 1 else (secondHalf.length : ℚ))
    let trend :=
      if qMul firstBull (Rat.divInt 11 10) < secondBull then "RISING"
      else if secondBull < qMul firstBull (Rat.divInt 9 10) then "DECLINING"
      else "STABLE"
    ⟨JVal.str (jsToFixed 1 bull), JVal.str (jsToFixed 1 bear), ratio, trend⟩

/-- The counter accumulated by the `getTopTickers` loops. -/
def tickerCounts (scans : List Scan) : List (String × ℕ) :=
  scans.foldl (fun m scan => tallyPairs m scan.topTickers) []

/-- Embeds `getTopTickers(scans, limit = 15)`. -/
def getTopTickers (scans : List Scan) (limit : ℕ := 15) : List MentionEntry :=
  (((sortDescBy (fun p => p.2) (tickerCounts scans)).take limit).map
    (fun p => MentionEntry.mk p.1 p.2))

/-- The macro-keyword allow list of `getCommodities`. -/
def commodityAllow : List String := ["gold", "silver", "copper", "oil", "corn", "coffee"]

/-- Loop body of `getCommodities` for one scan.  The first statement of
the source loop reads `scan.byCategory?.commodities ||
scan.byCategory?.metals || []` into a local that is never used
afterwards; the dead read is kept here as `_keywords`. -/
def commodityStep (m : List (String × ℕ)) (scan : Scan) : List (String × ℕ) :=
  let _keywords : List (String × ℕ) :=
    ((scan.byCategory.bind ByCategory.commodities).orElse
      (fun _ => scan.byCategory.bind ByCategory.metals)).getD []
  let m1 := scan.macroKeywords.foldl
    (fun m p => if p.1 ∈ commodityAllow then addCount m p.1 p.2 else m) m
  scan.commodityKeywords.foldl (fun m p => addCount m p.1 p.2) m1

/-- Embeds `getCommodities(scans)`. -/
def getCommodities (scans : List Scan) : List MentionEntry :=
  (sortDescBy (fun p => p.2) (scans.foldl commodityStep [])).map
    (fun p => MentionEntry.mk p.1 p.2)

/-- Embeds `getRegimeLabel(ratio)`: parse the ratio as a float and walk the
threshold ladder; a `NaN` parse fails every `>=` test and falls through
to the final return. -/
def getRegimeLabel (ratio : JVal) : Regime :=
  let r := parseFloatJ ratio
  if jsGEq r 5 then ⟨"EUPHORIA", "üöÄ", "#00ff88"⟩
  else if jsGEq r 3 then ⟨"BULLISH", "üü¢", "#4ade80"⟩
  else if jsGEq r (Rat.divInt 3 2) then ⟨"LEANING BULL", "üü°", "#facc15"⟩
  else if jsGEq r (Rat.divInt 67 100) then ⟨"NEUTRAL", "‚ö™", "#94a3b8"⟩
  else if jsGEq r (Rat.divInt 33 100) then ⟨"LEANING BEAR", "üü†", "#fb923c"⟩
  else ⟨"BEARISH", "üî¥", "#ef4444"⟩

/-- Embeds `getFearLevel(commodities, scanCount)`. -/
def getFearLevel (commodities : List MentionEntry) (scanCount : ℕ) : Fear :=
  let goldMentions : ℕ :=
    ((commodities.find? (fun c => c.name = "gold")).map MentionEntry.mentions).getD 0
  let perScan : ℚ := if 0 < scanCount then jsDiv (goldMentions : ℚ) (scanCount : ℚ) else 0
  if 5 ≤ perScan then ⟨"EXTREME", "üî¥", "#ef4444"⟩
  else if 3 ≤ perScan then ⟨"HIGH", "üü†", "#f97316"⟩
  else if Rat.divInt 3 2 ≤ perScan then ⟨"ELEVATED", "üü°", "#eab308"⟩
  else ⟨"NORMAL", "üü¢", "#22c55e"⟩

/-- The per-ticker body of the `getMomentum` loop: `rLen` is
`recentScans.length`, `denom` is `allScans.length - recentScans.length || 1`,
and `recent`/`prior` are the two bucket totals for the ticker.  Returns
the entry pushed onto `results`, or `none` when the ticker is skipped. -/
def momentumEval (rLen : ℕ) (denom : ℚ) (ticker : String) (recent prior : ℕ) :
    Option MomentumEntry :=
  if recent + prior < 5 then none
  else
    let recentRate : ℚ := jsDiv (recent : ℚ) (rLen : ℚ)
    let priorRate : ℚ := jsDiv (prior : ℚ) denom
    if 0 < priorRate then
      let change := jsRound (qMul (jsDiv (qSub recentRate priorRate) priorRate) 100)
      if 30 < change.natAbs then
        some ⟨ticker, jsToFixed 2 recentRate, jsToFixed 2 priorRate, change,
          if 0 < change then "up" else "down"⟩
      else none
    else if 3 ≤ recent then
      some ⟨ticker, jsToFixed 2 recentRate, "0.00", 999, "new"⟩
    else none

/-- Body of `getMomentum` once the significance guard has passed;
`r0` is `recentScans[0]`. -/
def momentumResults (allScans recentScans : List Scan) (r0 : Scan) : List MomentumEntry :=
  let recentStart := r0.timestamp
  let buckets := allScans.foldl
    (fun (acc : List (String × ℕ) × List (String × ℕ)) scan =>
      if jsTsGE scan.timestamp recentStart then (tallyPairs acc.1 scan.topTickers, acc.2)
      else (acc.1, tallyPairs acc.2 scan.topTickers)) ([], [])
  let recentTickers := buckets.1
  let priorTickers := buckets.2
  let allTickers := firstDedup (recentTickers.map Prod.fst ++ priorTickers.map Prod.fst)
  let d : ℤ := (allScans.length : ℤ) - (recentScans.length : ℤ)
  let denom : ℚ := if d = 0 then 1 else (d : ℚ)
  let results := allTickers.filterMap (fun t =>
    momentumEval recentScans.length denom t (lookCount recentTickers t) (lookCount priorTickers t))
  (sortDescBy (fun e => e.change.natAbs) results).take 12

/-- Embeds `getMomentum(allScans, recentScans)`. -/
def getMomentum (allScans recentScans : List Scan) : List MomentumEntry :=
  if allScans.length < 40 ∨ recentScans.length < 10 then []
  else
    match recentScans with
    | [] => []
    | r0 :: _ => momentumResults allScans recentScans r0

/-! ### Narrative composer -/

/-- Template-string rendering of a sentiment-summary value.  String
values render as themselves; the only numeric value this program ever
interpolates is the integer `0`, rendered by its decimal digits (the
non-integral fallback is never reached by the code). -/
def JVal.render : JVal → String
  | JVal.str s => s
  | JVal.num q => if q.den = 1 then toString q.num else jsToFixed 2 q

def euphoriaOpening : String :=
  "CT is running hot. Multiple signals pointing toward risk-on euphoria."

def bullishOpening (sentiment : SentimentSummary) : String :=
  "Structural optimism holds with a " ++ sentiment.ratio.render ++
    ":1 bull/bear ratio, though the mood is " ++ sentiment.trend.toLower ++ "."

def neutralOpening : String :=
  "Markets are in wait-and-see mode. Neither conviction nor fear dominating."

def cautionOpening : String := "Caution dominates. Bears have the floor."

/-- The opening sentence chosen by the regime label (lines 198-206). -/
def openingFor (sentiment : SentimentSummary) (regime : Regime) : String :=
  if regime.label = "EUPHORIA" then euphoriaOpening
  else if regime.label = "BULLISH" then bullishOpening sentiment
  else if regime.label = "NEUTRAL" then neutralOpening
  else cautionOpening

def extremeFearSentence : String :=
  "Gold mentions are at extreme levels ‚Äî historically this precedes volatility, not necessarily direction."

def highFearSentence : String :=
  "The fear gauge is elevated. Commodity mentions suggest macro uncertainty is on traders\x27 minds."

/-- The fear-gauge sentences pushed by lines 209-213. -/
def fearPartFor (fear : Fear) : List String :=
  if fear.level = "EXTREME" then [extremeFearSentence]
  else if fear.level = "HIGH" then [highFearSentence]
  else []

/-- Embeds `momentum.filter(m => m.direction === 'up' || m.direction === 'new').slice(0, 3)`. -/
def risingOf (momentum : List MomentumEntry) : List MomentumEntry :=
  (momentum.filter (fun m => decide (m.direction = "up" ∨ m.direction = "new"))).take 3

/-- Embeds `momentum.filter(m => m.direction === 'down').slice(0, 3)`. -/
def fallingOf (momentum : List MomentumEntry) : List MomentumEntry :=
  (momentum.filter (fun m => decide (m.direction = "down"))).take 3

def attentionSentence (rising : List MomentumEntry) : String :=
  "Attention building on " ++
    String.intercalate ", " (rising.map (fun m => "$" ++ m.ticker)) ++ "."

def fadingSentence (falling : List MomentumEntry) : String :=
  "Narrative fading for " ++
    String.intercalate ", " (falling.map (fun m => "$" ++ m.ticker)) ++ "."

/-- The `parts` array of `generateNarrative` in push order. -/
def narrativeParts (sentiment : SentimentSummary) (regime : Regime) (fear : Fear)
    (momentum : List MomentumEntry) : List String :=
  [openingFor sentiment regime] ++ fearPartFor fear ++
    (if (risingOf momentum).length ≠ 0 then [attentionSentence (risingOf momentum)] else []) ++
    (if (fallingOf momentum).length ≠ 0 then [fadingSentence (fallingOf momentum)] else [])

/-- Embeds `generateNarrative(sentiment, regime, fear, tickers, momentum)`; the
`tickers` parameter is accepted but never read by the source. -/
def generateNarrative (sentiment : SentimentSummary) (regime : Regime) (fear : Fear)
    (_tickers : List MentionEntry) (momentum : List MomentumEntry) : String :=
  String.intercalate " " (narrativeParts sentiment regime fear momentum)

/-! ## Concrete inputs used by the claims -/

/-- A minimal snapshot carrying only a timestamp and ticker counts. -/
def briefScan (ts : ℤ) (tickers : List (String × ℕ)) : Scan :=
  ⟨some ts, none, tickers, [], [], none⟩

/-- A single snapshot whose sentiment is bullish 80, bearish 0. -/
def bullOnlyScan : Scan := ⟨some 0, some ⟨some 80, some 0⟩, [], [], [], none⟩

/-- A history of 40 snapshots at timestamps 1..40; the one at 40 carries `special`. -/
def histScans (special : List (String × ℕ)) : List Scan :=
  (List.range 39).map (fun i => briefScan ((i : ℤ) + 1) []) ++ [briefScan 40 special]

/-- The 10 snapshots at timestamps 31..40 of `histScans special`. -/
def recentWindow (special : List (String × ℕ)) : List Scan :=
  (List.range 9).map (fun i => briefScan ((i : ℤ) + 31) []) ++ [briefScan 40 special]

/-- A history of 40 snapshots where ticker `UP` has 30 prior-bucket mentions (at
timestamp 1) and 20 recent-bucket mentions (at timestamp 40). -/
def histScansUp : List Scan :=
  briefScan 1 [("UP", 30)] ::
    ((List.range 38).map (fun i => briefScan ((i : ℤ) + 2) []) ++ [briefScan 40 [("UP", 20)]])

/-- The recent window (timestamps 31..40) of `histScansUp`. -/
def recentWindowUp : List Scan := recentWindow [("UP", 20)]

/-- A snapshot carrying macro and commodity keywords plus a populated
`byCategory` record. -/
def scanWithCat : Scan :=
  ⟨some 1, none, [], [("gold", 2)], [("oil", 1)],
    some ⟨some [("zinc", 9)], some [("silver", 4)]⟩⟩

/-- The same snapshot as `scanWithCat` but with no `byCategory` at all. -/
def scanNoCat : Scan := ⟨some 1, none, [], [("gold", 2)], [("oil", 1)], none⟩

/-- The fear classifier as the specification words it (refinement
reference for C8): `perScan = gold mentions / scanCount` when
`scanCount > 0` and `0` when `scanCount = 0`; thresholds `≥5 → EXTREME`,
`≥3 → HIGH`, `≥1.5 → ELEVATED`, else `NORMAL`. -/
def fearLevelSpec (commodities : List MentionEntry) (scanCount : ℕ) : String :=
  let goldMentions : ℕ :=
    ((commodities.find? (fun c => c.name = "gold")).map MentionEntry.mentions).getD 0
  let perScan : ℚ := if 0 < scanCount then (goldMentions : ℚ) / (scanCount : ℚ) else 0
  if 5 ≤ perScan then "EXTREME"
  else if 3 ≤ perScan then "HIGH"
  else if 3 / 2 ≤ perScan then "ELEVATED"
  else "NORMAL"

/-- Concrete narrative-composer inputs used by witnesses. -/
def sentimentW : SentimentSummary := ⟨JVal.num 0, JVal.num 0, JVal.num 0, "UNKNOWN"⟩

def regimeW : Regime := ⟨"NEUTRAL", "", ""⟩

def fearW : Fear := ⟨"EXTREME", "", ""⟩

def momentumW : List MomentumEntry := [⟨"AAA", "1.00", "0.00", 999, "new"⟩]


/-! ## The computable arithmetic agrees with the standard operations -/

theorem num_eq_mul_den (a : ℚ) : (a.num : ℚ) = a * a.den := by
  have h : ((a.den : ℚ)) ≠ 0 := Nat.cast_ne_zero.2 a.den_nz
  nth_rewrite 2 [← Rat.num_div_den a]
  rw [div_mul_cancel₀ _ h]

theorem qAdd_eq (a b : ℚ) : qAdd a b = a + b := by
  have hA : ((a.den : ℚ)) ≠ 0 := Nat.cast_ne_zero.2 a.den_nz
  have hB : ((b.den : ℚ)) ≠ 0 := Nat.cast_ne_zero.2 b.den_nz
  rw [qAdd, Rat.divInt_eq_div]
  push_cast
  field_simp
  rw [num_eq_mul_den a, num_eq_mul_den b]
  ring

theorem qSub_eq (a b : ℚ) : qSub a b = a - b := by
  have hA : ((a.den : ℚ)) ≠ 0 := Nat.cast_ne_zero.2 a.den_nz
  have hB : ((b.den : ℚ)) ≠ 0 := Nat.cast_ne_zero.2 b.den_nz
  rw [qSub, Rat.divInt_eq_div]
  push_cast
  field_simp
  rw [num_eq_mul_den a, num_eq_mul_den b]
  ring

theorem qMul_eq (a b : ℚ) : qMul a b = a * b := by
  have hA : ((a.den : ℚ)) ≠ 0 := Nat.cast_ne_zero.2 a.den_nz
  have hB : ((b.den : ℚ)) ≠ 0 := Nat.cast_ne_zero.2 b.den_nz
  rw [qMul, Rat.divInt_eq_div]
  push_cast
  field_simp
  rw [num_eq_mul_den a, num_eq_mul_den b]
  ring

theorem jsDiv_eq (a b : ℚ) : jsDiv a b = a / b := by
  rcases eq_or_ne b 0 with rfl | hb
  · have h0 : (0 : ℚ).num = 0 := rfl
    rw [jsDiv, h0, mul_zero, Rat.divInt_zero, div_zero]
  · have hA : ((a.den : ℚ)) ≠ 0 := Nat.cast_ne_zero.2 a.den_nz
    have hB : ((b.den : ℚ)) ≠ 0 := Nat.cast_ne_zero.2 b.den_nz
    have hbn : ((b.num : ℚ)) ≠ 0 := by
      rw [num_eq_mul_den b]
      exact mul_ne_zero hb hB
    rw [jsDiv, Rat.divInt_eq_div]
    push_cast
    field_simp
    rw [num_eq_mul_den a, num_eq_mul_den b]
    ring

theorem foldl_qAdd (l : List ℚ) : ∀ acc : ℚ, l.foldl qAdd acc = acc + l.sum := by
  induction l with
  | nil => intro acc; simp [List.foldl_nil]
  | cons x xs ih =>
    intro acc
    rw [List.foldl_cons, ih, qAdd_eq, List.sum_cons]
    ring

theorem qSum_eq (l : List ℚ) : qSum l = l.sum := by
  rw [qSum, foldl_qAdd]
  ring

theorem roundQ_eq (q : ℚ) : roundQ q = round q := by
  rw [roundQ, qAdd_eq, round_eq]
  have hfl : ∀ x : ℚ, Rat.floor x = ⌊x⌋ := fun x => rfl
  rw [hfl]
  congr 1
  norm_num [Rat.divInt_eq_div]

/-! ## Supporting lemmas: stable sorts -/

theorem mem_insertDescBy {α β : Type} [LinearOrder β] (key : α → β) (e x : α) :
    ∀ l, x ∈ insertDescBy key e l ↔ x = e ∨ x ∈ l
  | [] => by simp [insertDescBy]
  | y :: ys => by
    by_cases h : key y < key e
    · simp [insertDescBy, h]
    · simp only [insertDescBy, if_neg h, List.mem_cons, mem_insertDescBy key e x ys]
      tauto

theorem mem_sortDescBy {α β : Type} [LinearOrder β] (key : α → β) (x : α) :
    ∀ l, x ∈ sortDescBy key l ↔ x ∈ l
  | [] => by simp [sortDescBy]
  | y :: ys => by
    simp only [sortDescBy, mem_insertDescBy, mem_sortDescBy key x ys, List.mem_cons]

theorem pairwise_insertDescBy {α β : Type} [LinearOrder β] (key : α → β) (e : α) :
    ∀ l, List.Pairwise (fun a b => key b ≤ key a) l →
      List.Pairwise (fun a b => key b ≤ key a) (insertDescBy key e l)
  | [], _ => by simp [insertDescBy]
  | y :: ys, h => by
    rcases List.pairwise_cons.1 h with ⟨hy, hys⟩
    by_cases hk : key y < key e
    · rw [insertDescBy, if_pos hk]
      refine List.pairwise_cons.2 ⟨?_, h⟩
      intro z hz
      rcases List.mem_cons.1 hz with rfl | hz'
      · exact le_of_lt hk
      · exact le_trans (hy z hz') (le_of_lt hk)
    · rw [insertDescBy, if_neg hk]
      refine List.pairwise_cons.2 ⟨?_, pairwise_insertDescBy key e ys hys⟩
      intro z hz
      rcases (mem_insertDescBy key e z ys).1 hz with rfl | hz'
      · exact not_lt.1 hk
      · exact hy z hz'

theorem pairwise_sortDescBy {α β : Type} [LinearOrder β] (key : α → β) :
    ∀ l, List.Pairwise (fun a b => key b ≤ key a) (sortDescBy key l)
  | [] => by simp [sortDescBy]
  | y :: ys => pairwise_insertDescBy key y _ (pairwise_sortDescBy key ys)

theorem mem_insertAscBy {α β : Type} [LinearOrder β] (key : α → β) (e x : α) :
    ∀ l, x ∈ insertAscBy key e l ↔ x = e ∨ x ∈ l
  | [] => by simp [insertAscBy]
  | y :: ys => by
    by_cases h : key e < key y
    · simp [insertAscBy, h]
    · simp only [insertAscBy, if_neg h, List.mem_cons, mem_insertAscBy key e x ys]
      tauto

theorem mem_sortAscBy {α β : Type} [LinearOrder β] (key : α → β) (x : α) :
    ∀ l, x ∈ sortAscBy key l ↔ x ∈ l
  | [] => by simp [sortAscBy]
  | y :: ys => by
    simp only [sortAscBy, mem_insertAscBy, mem_sortAscBy key x ys, List.mem_cons]

theorem pairwise_insertAscBy {α β : Type} [LinearOrder β] (key : α → β) (e : α) :
    ∀ l, List.Pairwise (fun a b => key a ≤ key b) l →
      List.Pairwise (fun a b => key a ≤ key b) (insertAscBy key e l)
  | [], _ => by simp [insertAscBy]
  | y :: ys, h => by
    rcases List.pairwise_cons.1 h with ⟨hy, hys⟩
    by_cases hk : key e < key y
    · rw [insertAscBy, if_pos hk]
      refine List.pairwise_cons.2 ⟨?_, h⟩
      intro z hz
      rcases List.mem_cons.1 hz with rfl | hz'
      · exact le_of_lt hk
      · exact le_trans (le_of_lt hk) (hy z hz')
    · rw [insertAscBy, if_neg hk]
      refine List.pairwise_cons.2 ⟨?_, pairwise_insertAscBy key e ys hys⟩
      intro z hz
      rcases (mem_insertAscBy key e z ys).1 hz with rfl | hz'
      · exact not_lt.1 hk
      · exact hy z hz'

theorem pairwise_sortAscBy {α β : Type} [LinearOrder β] (key : α → β) :
    ∀ l, List.Pairwise (fun a b => key a ≤ key b) (sortAscBy key l)
  | [] => by simp [sortAscBy]
  | y :: ys => pairwise_insertAscBy key y _ (pairwise_sortAscBy key ys)

/-! ## Supporting lemmas: counter objects -/

/-- Keys of a counter, in insertion order. -/
def keysOf (m : List (String × ℕ)) : List String := m.map Prod.fst

theorem lookCount_addCount (k : String) (c : ℕ) :
    ∀ (m : List (String × ℕ)) (k' : String),
      lookCount (addCount m k c) k' = lookCount m k' + if k = k' then c else 0
  | [], k' => by
    by_cases h : k = k' <;> simp [addCount, lookCount, h]
  | (a, b) :: m, k' => by
    by_cases hak : a = k
    · subst hak
      by_cases hak' : a = k'
      · subst hak'
        simp [addCount, lookCount]
      · simp [addCount, lookCount, hak']
    · by_cases hak' : a = k'
      · subst hak'
        have hkk' : ¬ k = a := fun e => hak e.symm
        simp [addCount, lookCount, hak, hkk']
      · simp [addCount, lookCount, hak, hak', lookCount_addCount k c m k']

theorem keysOf_cons (p : String × ℕ) (m : List (String × ℕ)) :
    keysOf (p :: m) = p.1 :: keysOf m := rfl

theorem keysOf_addCount (k : String) (c : ℕ) :
    ∀ m : List (String × ℕ),
      keysOf (addCount m k c) = if k ∈ keysOf m then keysOf m else keysOf m ++ [k]
  | [] => by simp [addCount, keysOf]
  | (a, b) :: m => by
    by_cases hak : a = k
    · subst hak
      simp [addCount, keysOf]
    · have hka : ¬ k = a := fun e => hak e.symm
      rw [addCount, if_neg hak, keysOf_cons, keysOf_cons, keysOf_addCount k c m]
      by_cases hmem : k ∈ keysOf m
      · simp [hmem, hka, List.mem_cons]
      · simp [hmem, hka, List.mem_cons]

theorem nodup_keysOf_addCount {m : List (String × ℕ)} (k : String) (c : ℕ)
    (h : (keysOf m).Nodup) : (keysOf (addCount m k c)).Nodup := by
  rw [keysOf_addCount]
  by_cases hmem : k ∈ keysOf m
  · simpa [hmem] using h
  · simp only [hmem, if_false, List.nodup_append]
    exact ⟨h, List.nodup_singleton k, by simpa using fun hk => hmem hk⟩

theorem lookCount_of_mem :
    ∀ m : List (String × ℕ), (keysOf m).Nodup → ∀ {k : String} {v : ℕ},
      (k, v) ∈ m → lookCount m k = v
  | [], _, _, _, h => by simp at h
  | (a, b) :: m, hnd, k, v, h => by
    rcases List.mem_cons.1 h with heq | hmem
    · cases heq
      simp [lookCount]
    · have hk : k ∈ keysOf m := by
        exact List.mem_map.2 ⟨(k, v), hmem, rfl⟩
      have hak : ¬ a = k := by
        intro e
        subst e
        exact (List.nodup_cons.1 (by simpa [keysOf] using hnd)).1 hk
      rw [lookCount, if_neg hak]
      exact lookCount_of_mem m (List.nodup_cons.1 (by simpa [keysOf] using hnd)).2 hmem

theorem lookCount_tallyPairs (k : String) :
    ∀ (ps : List (String × ℕ)) (m : List (String × ℕ)),
      lookCount (tallyPairs m ps) k =
        lookCount m k + (ps.map (fun p => if cleanTicker p.1 = k then p.2 else 0)).sum
  | [], m => by simp [tallyPairs]
  | p :: ps, m => by
    have step : tallyPairs m (p :: ps) = tallyPairs (addCount m (cleanTicker p.1) p.2) ps := rfl
    rw [step, lookCount_tallyPairs k ps, lookCount_addCount]
    simp only [List.map_cons, List.sum_cons]
    omega

theorem nodup_keysOf_tallyPairs :
    ∀ (ps : List (String × ℕ)) (m : List (String × ℕ)),
      (keysOf m).Nodup → (keysOf (tallyPairs m ps)).Nodup
  | [], _, h => h
  | _ :: ps, _, h =>
    nodup_keysOf_tallyPairs ps _ (nodup_keysOf_addCount _ _ h)

/-- Total mention count of normalized symbol `k` across a snapshot set:
the sum, over all snapshots and all their `topTickers` pairs, of the
counts whose marker-stripped symbol is `k`. -/
def totalMentions (scans : List Scan) (k : String) : ℕ :=
  (scans.map (fun sc =>
    ((sc.topTickers.map (fun p => if cleanTicker p.1 = k then p.2 else 0)).sum))).sum

theorem lookCount_foldTickers (k : String) :
    ∀ (scans : List Scan) (init : List (String × ℕ)),
      lookCount (scans.foldl (fun m scan => tallyPairs m scan.topTickers) init) k =
        lookCount init k + totalMentions scans k
  | [], init => by simp [totalMentions]
  | sc :: scans, init => by
    simp only [List.foldl_cons]
    rw [lookCount_foldTickers k scans, lookCount_tallyPairs]
    simp only [totalMentions, List.map_cons, List.sum_cons]
    omega

theorem lookCount_tickerCounts (scans : List Scan) (k : String) :
    lookCount (tickerCounts scans) k = totalMentions scans k := by
  have := lookCount_foldTickers k scans []
  simpa [tickerCounts, lookCount] using this

theorem nodup_keysOf_tickerCounts (scans : List Scan) :
    (keysOf (tickerCounts scans)).Nodup := by
  have : ∀ (ss : List Scan) (init : List (String × ℕ)), (keysOf init).Nodup →
      (keysOf (ss.foldl (fun m scan => tallyPairs m scan.topTickers) init)).Nodup := by
    intro ss
    induction ss with
    | nil => intro init h; exact h
    | cons sc ss ih =>
      intro init h
      exact ih _ (nodup_keysOf_tallyPairs _ _ h)
  exact this scans [] (by simp [keysOf])

theorem mem_counts_value {m : List (String × ℕ)} (hnd : (keysOf m).Nodup)
    {p : String × ℕ} (hp : p ∈ m) : p.2 = lookCount m p.1 := by
  cases p with
  | mk k v => exact (lookCount_of_mem m hnd hp).symm

/-! ## Supporting lemmas: distinguishing the narrative sentences -/

/-- First character of a string, if any. -/
def headChar (s : String) : Option Char := s.data.head?

theorem ne_of_headChar {s t : String} (h : headChar s ≠ headChar t) : s ≠ t := by
  intro e
  exact h (by rw [e])

theorem data_append (a b : List Char) : (String.mk a ++ String.mk b).data = a ++ b := rfl

theorem append_data_eq (s t : String) : (s ++ t).data = s.data ++ t.data := by
  cases s with
  | mk a =>
    cases t with
    | mk b => exact data_append a b

theorem headChar_append {s : String} (t : String) (h : s.data ≠ []) :
    headChar (s ++ t) = headChar s := by
  rw [headChar, append_data_eq]
  cases hs : s.data with
  | nil => exact absurd hs h
  | cons c cs => simp [headChar, hs]

theorem append_data_ne {s : String} (t : String) (h : s.data ≠ []) : (s ++ t).data ≠ [] := by
  rw [append_data_eq]
  intro e
  exact h (List.append_eq_nil.1 e).1

theorem ne_empty_of_headChar {s : String} {c : Char} (h : headChar s = some c) : s ≠ "" := by
  intro e
  rw [e] at h
  exact Option.noConfusion h

theorem ne_of_heads {s t : String} {a b : Char} (hs : headChar s = some a)
    (ht : headChar t = some b) (hab : a ≠ b) : s ≠ t :=
  ne_of_headChar (by rw [hs, ht]; exact fun e => hab (Option.some.inj e))

theorem headChar_euphoriaOpening : headChar euphoriaOpening = some 'C' := rfl

theorem headChar_neutralOpening : headChar neutralOpening = some 'M' := rfl

theorem headChar_cautionOpening : headChar cautionOpening = some 'C' := rfl

theorem headChar_bullishOpening (s : SentimentSummary) :
    headChar (bullishOpening s) = some 'S' := by
  unfold bullishOpening
  rw [headChar_append, headChar_append, headChar_append, headChar_append]
  · rfl
  · decide
  · exact append_data_ne _ (by decide)
  · exact append_data_ne _ (append_data_ne _ (by decide))
  · exact append_data_ne _ (append_data_ne _ (append_data_ne _ (by decide)))

theorem headChar_extremeFearSentence : headChar extremeFearSentence = some 'G' := rfl

theorem headChar_highFearSentence : headChar highFearSentence = some 'T' := rfl

theorem headChar_attentionSentence (l : List MomentumEntry) :
    headChar (attentionSentence l) = some 'A' := by
  unfold attentionSentence
  rw [headChar_append, headChar_append]
  · rfl
  · decide
  · exact append_data_ne _ (by decide)

theorem headChar_fadingSentence (l : List MomentumEntry) :
    headChar (fadingSentence l) = some 'N' := by
  unfold fadingSentence
  rw [headChar_append, headChar_append]
  · rfl
  · decide
  · exact append_data_ne _ (by decide)

theorem headChar_openingFor (s : SentimentSummary) (r : Regime) :
    headChar (openingFor s r) = some 'C' ∨ headChar (openingFor s r) = some 'S' ∨
      headChar (openingFor s r) = some 'M' := by
  unfold openingFor
  split_ifs
  · exact Or.inl headChar_euphoriaOpening
  · exact Or.inr (Or.inl (headChar_bullishOpening s))
  · exact Or.inr (Or.inr headChar_neutralOpening)
  · exact Or.inl headChar_cautionOpening

theorem ext_ne_openingFor (s : SentimentSummary) (r : Regime) :
    extremeFearSentence ≠ openingFor s r := by
  rcases headChar_openingFor s r with h | h | h <;>
    exact ne_of_heads headChar_extremeFearSentence h (by decide)

theorem high_ne_openingFor (s : SentimentSummary) (r : Regime) :
    highFearSentence ≠ openingFor s r := by
  rcases headChar_openingFor s r with h | h | h <;>
    exact ne_of_heads headChar_highFearSentence h (by decide)

theorem att_ne_openingFor (l : List MomentumEntry) (s : SentimentSummary) (r : Regime) :
    attentionSentence l ≠ openingFor s r := by
  rcases headChar_openingFor s r with h | h | h <;>
    exact ne_of_heads (headChar_attentionSentence l) h (by decide)

theorem fad_ne_openingFor (l : List MomentumEntry) (s : SentimentSummary) (r : Regime) :
    fadingSentence l ≠ openingFor s r := by
  rcases headChar_openingFor s r with h | h | h <;>
    exact ne_of_heads (headChar_fadingSentence l) h (by decide)

theorem ext_ne_att (l : List MomentumEntry) : extremeFearSentence ≠ attentionSentence l :=
  ne_of_heads headChar_extremeFearSentence (headChar_attentionSentence l) (by decide)

theorem ext_ne_fad (l : List MomentumEntry) : extremeFearSentence ≠ fadingSentence l :=
  ne_of_heads headChar_extremeFearSentence (headChar_fadingSentence l) (by decide)

theorem high_ne_att (l : List MomentumEntry) : highFearSentence ≠ attentionSentence l :=
  ne_of_heads headChar_highFearSentence (headChar_attentionSentence l) (by decide)

theorem high_ne_fad (l : List MomentumEntry) : highFearSentence ≠ fadingSentence l :=
  ne_of_heads headChar_highFearSentence (headChar_fadingSentence l) (by decide)

theorem att_ne_ext (l : List MomentumEntry) : attentionSentence l ≠ extremeFearSentence :=
  (ext_ne_att l).symm

theorem att_ne_high (l : List MomentumEntry) : attentionSentence l ≠ highFearSentence :=
  (high_ne_att l).symm

theorem att_ne_fad (l l' : List MomentumEntry) : attentionSentence l ≠ fadingSentence l' :=
  ne_of_heads (headChar_attentionSentence l) (headChar_fadingSentence l') (by decide)

theorem fad_ne_ext (l : List MomentumEntry) : fadingSentence l ≠ extremeFearSentence :=
  (ext_ne_fad l).symm

theorem fad_ne_high (l : List MomentumEntry) : fadingSentence l ≠ highFearSentence :=
  (high_ne_fad l).symm

theorem fad_ne_att (l l' : List MomentumEntry) : fadingSentence l ≠ attentionSentence l' :=
  (att_ne_fad l' l).symm

theorem openingFor_ne_empty (s : SentimentSummary) (r : Regime) : openingFor s r ≠ "" := by
  rcases headChar_openingFor s r with h | h | h <;> exact ne_empty_of_headChar h

theorem risingOf_ne_nil (momentum : List MomentumEntry) :
    risingOf momentum ≠ [] ↔ ∃ m ∈ momentum, m.direction = "up" ∨ m.direction = "new" := by
  unfold risingOf
  rw [Ne, List.take_eq_nil_iff]
  simp only [List.filter_eq_nil_iff, decide_eq_true_eq]
  push_neg
  simp

theorem fallingOf_ne_nil (momentum : List MomentumEntry) :
    fallingOf momentum ≠ [] ↔ ∃ m ∈ momentum, m.direction = "down" := by
  unfold fallingOf
  rw [Ne, List.take_eq_nil_iff]
  simp only [List.filter_eq_nil_iff, decide_eq_true_eq]
  push_neg
  simp

theorem mem_narrativeParts (sentiment : SentimentSummary) (regime : Regime) (fear : Fear)
    (momentum : List MomentumEntry) (p : String) :
    p ∈ narrativeParts sentiment regime fear momentum ↔
      p = openingFor sentiment regime ∨ p ∈ fearPartFor fear ∨
      ((risingOf momentum).length ≠ 0 ∧ p = attentionSentence (risingOf momentum)) ∨
      ((fallingOf momentum).length ≠ 0 ∧ p = fadingSentence (fallingOf momentum)) := by
  unfold narrativeParts
  by_cases hr : (risingOf momentum).length ≠ 0 <;>
    by_cases hf : (fallingOf momentum).length ≠ 0 <;>
      simp [hr, hf, List.mem_append]

/-- C9: for every input to the narrative composer: the narrative is
the space-join of its sentence parts; no part is an empty fragment; a
fear-gauge sentence appears among the parts if and only if the fear
level is `EXTREME` or `HIGH`; the "Attention building" sentence appears
iff some momentum entry has direction `up` or `new`, and it lists the
first at-most-3 such tickers; the "Narrative fading" sentence appears
iff some entry has direction `down`, and it lists the first at-most-3
such tickers. -/
theorem generateNarrative_structure (sentiment : SentimentSummary) (regime : Regime)
    (fear : Fear) (tickers : List MentionEntry) (momentum : List MomentumEntry) :
    generateNarrative sentiment regime fear tickers momentum =
      String.intercalate " " (narrativeParts sentiment regime fear momentum) ∧
    (∀ p ∈ narrativeParts sentiment regime fear momentum, p ≠ "") ∧
    ((extremeFearSentence ∈ narrativeParts sentiment regime fear momentum ∨
        highFearSentence ∈ narrativeParts sentiment regime fear momentum) ↔
      (fear.level = "EXTREME" ∨ fear.level = "HIGH")) ∧
    ((attentionSentence (risingOf momentum) ∈ narrativeParts sentiment regime fear momentum ↔
        ∃ m ∈ momentum, m.direction = "up" ∨ m.direction = "new") ∧
      (risingOf momentum).length ≤ 3) ∧
    ((fadingSentence (fallingOf momentum) ∈ narrativeParts sentiment regime fear momentum ↔
        ∃ m ∈ momentum, m.direction = "down") ∧
      (fallingOf momentum).length ≤ 3) := by
  refine ⟨rfl, ?_, ?_, ⟨?_, List.length_take_le 3 _⟩, ⟨?_, List.length_take_le 3 _⟩⟩
  · intro p hp
    rcases (mem_narrativeParts sentiment regime fear momentum p).1 hp with
      h | h | ⟨_, h⟩ | ⟨_, h⟩
    · rw [h]
      exact openingFor_ne_empty sentiment regime
    · unfold fearPartFor at h
      split_ifs at h <;> simp only [List.mem_singleton, List.not_mem_nil] at h
      · rw [h]
        exact ne_empty_of_headChar headChar_extremeFearSentence
      · rw [h]
        exact ne_empty_of_headChar headChar_highFearSentence
    · rw [h]
      exact ne_empty_of_headChar (headChar_attentionSentence _)
    · rw [h]
      exact ne_empty_of_headChar (headChar_fadingSentence _)
  · constructor
    · rintro (hmem | hmem)
      · rcases (mem_narrativeParts sentiment regime fear momentum _).1 hmem with
          h | h | ⟨_, h⟩ | ⟨_, h⟩
        · exact absurd h (ext_ne_openingFor sentiment regime)
        · unfold fearPartFor at h
          split_ifs at h with h1 h2 <;> simp only [List.mem_singleton, List.not_mem_nil] at h
          · exact Or.inl h1
          · exact absurd h (by decide)
        · exact absurd h (ext_ne_att _)
        · exact absurd h (ext_ne_fad _)
      · rcases (mem_narrativeParts sentiment regime fear momentum _).1 hmem with
          h | h | ⟨_, h⟩ | ⟨_, h⟩
        · exact absurd h (high_ne_openingFor sentiment regime)
        · unfold fearPartFor at h
          split_ifs at h with h1 h2 <;> simp only [List.mem_singleton, List.not_mem_nil] at h
          · exact absurd h (by decide)
          · exact Or.inr h2
        · exact absurd h (high_ne_att _)
        · exact absurd h (high_ne_fad _)
    · rintro (hlev | hlev)
      · refine Or.inl ((mem_narrativeParts sentiment regime fear momentum _).2 ?_)
        refine Or.inr (Or.inl ?_)
        unfold fearPartFor
        rw [if_pos hlev]
        exact List.mem_singleton.2 rfl
      · refine Or.inr ((mem_narrativeParts sentiment regime fear momentum _).2 ?_)
        refine Or.inr (Or.inl ?_)
        have hne : ¬ fear.level = "EXTREME" := by
          rw [hlev]
          decide
        unfold fearPartFor
        rw [if_neg hne, if_pos hlev]
        exact List.mem_singleton.2 rfl
  · constructor
    · intro hmem
      rcases (mem_narrativeParts sentiment regime fear momentum _).1 hmem with
        h | h | ⟨hlen, _⟩ | ⟨_, h⟩
      · exact absurd h (att_ne_openingFor _ sentiment regime)
      · unfold fearPartFor at h
        split_ifs at h <;> simp only [List.mem_singleton, List.not_mem_nil] at h
        · exact absurd h (att_ne_ext _)
        · exact absurd h (att_ne_high _)
      · exact (risingOf_ne_nil momentum).1 (fun e => hlen (by rw [e]; rfl))
      · exact absurd h (att_ne_fad _ _)
    · intro hex
      have hne : risingOf momentum ≠ [] := (risingOf_ne_nil momentum).2 hex
      refine (mem_narrativeParts sentiment regime fear momentum _).2 ?_
      exact Or.inr (Or.inr (Or.inl ⟨fun h0 => hne (List.length_eq_zero.1 h0), rfl⟩))
  · constructor
    · intro hmem
      rcases (mem_narrativeParts sentiment regime fear momentum _).1 hmem with
        h | h | ⟨_, h⟩ | ⟨hlen, _⟩
      · exact absurd h (fad_ne_openingFor _ sentiment regime)
      · unfold fearPartFor at h
        split_ifs at h <;> simp only [List.mem_singleton, List.not_mem_nil] at h
        · exact absurd h (fad_ne_ext _)
        · exact absurd h (fad_ne_high _)
      · exact absurd h (fad_ne_att _ _)
      · exact (fallingOf_ne_nil momentum).1 (fun e => hlen (by rw [e]; rfl))
    · intro hex
      have hne : fallingOf momentum ≠ [] := (fallingOf_ne_nil momentum).2 hex
      refine (mem_narrativeParts sentiment regime fear momentum _).2 ?_
      exact Or.inr (Or.inr (Or.inr ⟨fun h0 => hne (List.length_eq_zero.1 h0), rfl⟩))


/-- Witness for C9 at a concrete input: with one `new`-direction
momentum entry, the "Attention building" sentence is among the
narrative parts. -/
theorem generateNarrative_structure_witness :
    attentionSentence (risingOf momentumW) ∈ narrativeParts sentimentW regimeW fearW momentumW :=
  ((generateNarrative_structure sentimentW regimeW fearW [] momentumW).2.2.2.1.1).2
    ⟨⟨"AAA", "1.00", "0.00", 999, "new"⟩, List.mem_singleton.2 rfl, Or.inr rfl⟩


/-! ## C1: infinite bull/bear ratio and its regime classification -/

/-- C1, evaluated at the failing input: for an all-bullish window
(`bearish = 0`, mean bullish `> 0`) the sentiment ratio is indeed the
infinity marker; but `getRegimeLabel` parses that marker to `NaN`, every
`>=` threshold test is false, and the regime comes out `BEARISH` — not
`EUPHORIA` as the specification requires. -/
theorem infinite_ratio_classified_bearish :
    (analyzeSentiment [bullOnlyScan]).ratio = JVal.str infinitySym ∧
    (getRegimeLabel (analyzeSentiment [bullOnlyScan]).ratio).label = "BEARISH" := by
  decide

/-! ## C3: analyzeSentiment on the empty snapshot sequence -/

/-- C3 counterexample: on the empty input the source returns the
*number* `0` in the `ratio` field (line 55: `ratio: 0`), not the string
`"0"`: the two are distinguishable JavaScript values (`typeof`, JSON
serialization). -/
theorem analyzeSentiment_empty_ratio_not_string :
    (analyzeSentiment []).ratio ≠ JVal.str "0" := by
  decide

/-- C3 amended: for the empty snapshot sequence `analyzeSentiment`
returns bull = 0, bear = 0, trend = "UNKNOWN", and the ratio is the
numeric value 0 (which renders as "0") rather than the string "0". -/
theorem analyzeSentiment_empty_result :
    analyzeSentiment [] = ⟨JVal.num 0, JVal.num 0, JVal.num 0, "UNKNOWN"⟩ := by
  decide

/-! ## C4: momentum significance guard -/

/-- C4: whenever the full history has fewer than 40 snapshots or
the recent window fewer than 10, `getMomentum` returns the ordinary
empty list (its return type is a plain list — no error channel exists),
regardless of the snapshots' content. -/
theorem getMomentum_insufficient_data (allScans recentScans : List Scan)
    (h : allScans.length < 40 ∨ recentScans.length < 10) :
    getMomentum allScans recentScans = [] := by
  unfold getMomentum
  rw [if_pos h]

/-- Witness for C4 at a concrete input. -/
theorem getMomentum_insufficient_data_witness : getMomentum [] [] = [] :=
  getMomentum_insufficient_data [] [] (Or.inl (by decide))

/-! ## C2 and C5: momentum detector inclusion rules -/

/-- Every entry of a `getMomentum` result is produced by `momentumEval`
for some ticker and bucket totals. -/
theorem exists_eval_of_mem_getMomentum {allScans recentScans : List Scan}
    {e : MomentumEntry} (he : e ∈ getMomentum allScans recentScans) :
    ∃ (rLen : ℕ) (denom : ℚ) (t : String) (recent prior : ℕ),
      momentumEval rLen denom t recent prior = some e := by
  unfold getMomentum at he
  split at he
  · simp at he
  · split at he
    · simp at he
    · simp only [momentumResults] at he
      have h1 := List.mem_of_mem_take he
      have h2 := (mem_sortDescBy (fun x => x.change.natAbs) e _).1 h1
      rcases List.mem_filterMap.1 h2 with ⟨t, _, hf⟩
      exact ⟨_, _, t, _, _, hf⟩

/-- Branch analysis of `momentumEval`: an entry whose direction is not
`"new"` was pushed by the `priorRate > 0` branch, so its rounded change
cleared the strict 30 threshold and its direction is the sign of the
change. -/
theorem momentumEval_some_dir (rLen : ℕ) (denom : ℚ) (t : String) (recent prior : ℕ)
    (e : MomentumEntry) (h : momentumEval rLen denom t recent prior = some e)
    (hdir : e.direction ≠ "new") :
    30 < e.change.natAbs ∧ e.direction = (if 0 < e.change then "up" else "down") := by
  simp only [momentumEval] at h
  split at h
  next => exact Option.noConfusion h
  next =>
    split at h
    next =>
      split at h
      next h3 =>
        cases Option.some.inj h
        exact ⟨h3, rfl⟩
      next => exact Option.noConfusion h
    next =>
      split at h
      next =>
        cases Option.some.inj h
        exact absurd rfl hdir
      next => exact Option.noConfusion h

/-- Evaluates `jsRound` at the integer 30. -/
theorem jsRound_thirty : jsRound (30 : ℚ) = 30 := by
  have h30 : ((30 : ℕ) : ℚ) = (30 : ℚ) := by norm_num
  rw [jsRound, if_neg (by norm_num), roundQ_eq, ← h30, round_natCast]
  norm_num

/-- Branch analysis of `momentumEval` when the prior rate is positive:
the entry records the rounded percent change, which cleared the strict
30 threshold. -/
theorem momentumEval_some_prior (rLen : ℕ) (denom : ℚ) (t : String) (recent prior : ℕ)
    (e : MomentumEntry) (hp : 0 < jsDiv (prior : ℚ) denom)
    (h : momentumEval rLen denom t recent prior = some e) :
    e.change = jsRound (qMul (jsDiv (qSub (jsDiv (recent : ℚ) (rLen : ℚ))
        (jsDiv (prior : ℚ) denom)) (jsDiv (prior : ℚ) denom)) 100) ∧
    30 < e.change.natAbs := by
  simp only [momentumEval] at h
  split at h
  next => exact Option.noConfusion h
  next =>
    split at h
    next h3 =>
      cases Option.some.inj h
      exact ⟨rfl, h3⟩
    next => exact Option.noConfusion h

/-- C5: momentum inclusion for tickers with a prior baseline.
Part 1: every entry of a `getMomentum` result whose direction is not
`"new"` has `|change| > 30` and direction `"up"`/`"down"` by the sign of
its change.  Part 2: an entry produced with `priorRate > 0` carries
exactly the rounded percent change and cleared the strict threshold.
Part 3: when `recentRate` is exactly 1.3 × `priorRate` the rounded
change is 30, and the ticker is excluded. -/
theorem momentum_strict_threshold :
    (∀ allScans recentScans : List Scan, ∀ e ∈ getMomentum allScans recentScans,
        e.direction ≠ "new" →
        30 < e.change.natAbs ∧ e.direction = (if 0 < e.change then "up" else "down")) ∧
    (∀ (rLen : ℕ) (denom : ℚ) (t : String) (recent prior : ℕ) (e : MomentumEntry),
        0 < (prior : ℚ) / denom →
        momentumEval rLen denom t recent prior = some e →
        e.change = jsRound (((recent : ℚ) / (rLen : ℚ) - (prior : ℚ) / denom) /
            ((prior : ℚ) / denom) * 100) ∧
        30 < e.change.natAbs) ∧
    (∀ (rLen : ℕ) (denom : ℚ) (t : String) (recent prior : ℕ),
        0 < (prior : ℚ) / denom →
        (recent : ℚ) / (rLen : ℚ) = (13 / 10 : ℚ) * ((prior : ℚ) / denom) →
        momentumEval rLen denom t recent prior = none ∧
        jsRound (((recent : ℚ) / (rLen : ℚ) - (prior : ℚ) / denom) /
            ((prior : ℚ) / denom) * 100) = 30) := by
  refine ⟨?_, ?_, ?_⟩
  · intro allScans recentScans e he hdir
    rcases exists_eval_of_mem_getMomentum he with ⟨rLen, denom, t, recent, prior, hf⟩
    exact momentumEval_some_dir rLen denom t recent prior e hf hdir
  · intro rLen denom t recent prior e hp h
    rw [← jsDiv_eq] at hp
    obtain ⟨hc, hn⟩ := momentumEval_some_prior rLen denom t recent prior e hp h
    simp only [jsDiv_eq, qSub_eq, qMul_eq] at hc
    exact ⟨hc, hn⟩
  · intro rLen denom t recent prior hp heq
    have hp' : (prior : ℚ) / denom ≠ 0 := ne_of_gt hp
    obtain ⟨hpn, hdn⟩ := div_ne_zero_iff.1 hp'
    have harith : ((recent : ℚ) / (rLen : ℚ) - (prior : ℚ) / denom) /
        ((prior : ℚ) / denom) * 100 = 30 := by
      rw [heq]
      field_simp
      ring
    have hr30 : jsRound (((recent : ℚ) / (rLen : ℚ) - (prior : ℚ) / denom) /
        ((prior : ℚ) / denom) * 100) = 30 := by
      rw [harith, jsRound_thirty]
    refine ⟨?_, hr30⟩
    have hr30q : jsRound (qMul (jsDiv (qSub (jsDiv (recent : ℚ) (rLen : ℚ))
        (jsDiv (prior : ℚ) denom)) (jsDiv (prior : ℚ) denom)) 100) = 30 := by
      simp only [jsDiv_eq, qSub_eq, qMul_eq]
      exact hr30
    have hpj : 0 < jsDiv (prior : ℚ) denom := by
      rw [jsDiv_eq]
      exact hp
    simp only [momentumEval]
    split
    next => rfl
    next =>
      split
      next h3 =>
        rw [hr30q] at h3
        exact absurd h3 (by norm_num)
      next => rfl

/-- Witness for C5: the concrete 40-scan history `histScansUp` produces
the entry `UP, +100%, up`, whose change clears the threshold; and at the
exact 1.3 × boundary (`recentRate = 1.3`, `priorRate = 1`) the ticker
is excluded. -/
theorem momentum_strict_threshold_witness :
    momentumEval 10 30 "T" 13 30 = none ∧
    30 < (MomentumEntry.mk "UP" "2.00" "1.00" 100 "up").change.natAbs := by
  constructor
  · exact (momentum_strict_threshold.2.2 10 30 "T" 13 30 (by norm_num) (by norm_num)).1
  · exact (momentum_strict_threshold.1 histScansUp recentWindowUp
      (MomentumEntry.mk "UP" "2.00" "1.00" 100 "up") (by decide) (by decide)).1

/-- C2 counterexample: with sufficient data (40 total snapshots,
10 recent), a ticker with prior-bucket count 0 and recent-bucket count 4
is *not* included: `recentCount + priorCount = 4` falls under the
`< 5` noise floor, which runs before the `"new"` branch, so the result
is empty. -/
theorem momentum_new_ticker_count4_excluded :
    getMomentum (histScans [("ABC", 4)]) (recentWindow [("ABC", 4)]) = [] := by
  decide

/-- C2 amended: with sufficient data, a ticker with prior-bucket
count 0 and recent-bucket count 5 (the least count clearing the
`recentCount + priorCount ≥ 5` noise floor) is included with direction
`"new"` and synthetic change 999; shown end-to-end on a concrete
40-snapshot history and, per-ticker, for every window length and prior
denominator. -/
theorem momentum_new_ticker_count5_included :
    getMomentum (histScans [("ABC", 5)]) (recentWindow [("ABC", 5)]) =
      [⟨"ABC", "0.50", "0.00", 999, "new"⟩] ∧
    (∀ (rLen : ℕ) (denom : ℚ) (t : String), 0 < rLen →
      momentumEval rLen denom t 5 0 =
        some ⟨t, jsToFixed 2 (jsDiv ((5 : ℕ) : ℚ) ((rLen : ℕ) : ℚ)), "0.00", 999, "new"⟩) := by
  constructor
  · decide
  · intro rLen denom t _
    have hz : ¬ (0 : ℚ) < jsDiv ((0 : ℕ) : ℚ) denom := by
      rw [jsDiv_eq]
      norm_num
    simp only [momentumEval]
    rw [if_neg (by norm_num), if_neg hz, if_pos (by norm_num)]

/-- Witness for C2's amended theorem at a concrete window length. -/
theorem momentum_new_ticker_count5_included_witness :
    momentumEval 10 30 "XYZ" 5 0 =
      some ⟨"XYZ", jsToFixed 2 (jsDiv ((5 : ℕ) : ℚ) ((10 : ℕ) : ℚ)), "0.00", 999, "new"⟩ := by
  exact momentum_new_ticker_count5_included.2 10 30 "XYZ" (by decide)

/-! ## C6: ticker aggregation -/

/-- C6: ticker aggregation: the `$BTC`/`BTC` example sums to a
single `BTC` entry with 15 mentions; the result never exceeds the
caller-supplied limit; it is sorted by descending mention count; each
entry's count is the sum, over all snapshots, of the counts whose
normalized symbol matches; and normalization strips the leading `$`
marker. -/
theorem getTopTickers_spec :
    getTopTickers [briefScan 1 [("$BTC", 10)], briefScan 2 [("BTC", 5)]] 15 =
      [⟨"BTC", 15⟩] ∧
    (∀ (scans : List Scan) (limit : ℕ), (getTopTickers scans limit).length ≤ limit) ∧
    (∀ (scans : List Scan) (limit : ℕ),
      List.Pairwise (fun a b => b.mentions ≤ a.mentions) (getTopTickers scans limit)) ∧
    (∀ (scans : List Scan) (limit : ℕ), ∀ e ∈ getTopTickers scans limit,
      e.mentions = totalMentions scans e.name) ∧
    (∀ s : String, cleanTicker ("$" ++ s) = s) := by
  refine ⟨by decide, ?_, ?_, ?_, ?_⟩
  · intro scans limit
    rw [getTopTickers, List.length_map]
    exact List.length_take_le limit _
  · intro scans limit
    rw [getTopTickers, List.pairwise_map]
    exact List.Pairwise.sublist (List.take_sublist limit _)
      (pairwise_sortDescBy (fun p => p.2) (tickerCounts scans))
  · intro scans limit e he
    rw [getTopTickers] at he
    rcases List.mem_map.1 he with ⟨p, hp, rfl⟩
    have h1 : p ∈ sortDescBy (fun p => p.2) (tickerCounts scans) := List.mem_of_mem_take hp
    have h2 : p ∈ tickerCounts scans := (mem_sortDescBy (fun p => p.2) p _).1 h1
    have h3 := mem_counts_value (nodup_keysOf_tickerCounts scans) h2
    rw [lookCount_tickerCounts] at h3
    exact h3
  · intro s
    have hd : ("$" ++ s).data = '$' :: s.data := by
      rw [append_data_eq]
      rfl
    rw [cleanTicker, hd, stripFirst, if_pos rfl]

/-- Witness for C6 at the concrete example: the `BTC` entry's 15
mentions equal the per-symbol total across the two snapshots. -/
theorem getTopTickers_spec_witness :
    (MentionEntry.mk "BTC" 15).mentions =
      totalMentions [briefScan 1 [("$BTC", 10)], briefScan 2 [("BTC", 5)]]
        (MentionEntry.mk "BTC" 15).name := by
  exact getTopTickers_spec.2.2.2.1 _ 15 (MentionEntry.mk "BTC" 15) (by decide)

/-! ## C7: windowing -/

theorem jsTsGE_some_iff (o : Option ℤ) (c : ℤ) :
    jsTsGE o (some c) = true ↔ ∃ t, o = some t ∧ c ≤ t := by
  cases o <;> simp [jsTsGE]

/-- C7: the windowing operation returns a subset of its input,
namely exactly the records whose timestamp parses and is at or after
`now − h` hours (3 600 000 ms per hour), sorted ascending by timestamp;
records with unparseable timestamps are excluded, and empty input gives
the empty list (the return type has no error channel). -/
theorem loadScans_window (now h : ℤ) (records : List Scan) (_hpos : 0 < h) :
    (∀ s ∈ loadScans now h records, s ∈ records) ∧
    (∀ s, s ∈ loadScans now h records ↔
      s ∈ records ∧ ∃ t, s.timestamp = some t ∧ now - h * 3600000 ≤ t) ∧
    List.Pairwise (fun a b => tsKey a ≤ tsKey b) (loadScans now h records) ∧
    (∀ s ∈ loadScans now h records, s.timestamp ≠ none) ∧
    (records = [] → loadScans now h records = []) := by
  have hmem : ∀ s, s ∈ loadScans now h records ↔
      s ∈ records ∧ ∃ t, s.timestamp = some t ∧ now - h * 3600000 ≤ t := by
    intro s
    simp only [loadScans]
    rw [mem_sortAscBy, List.mem_filter, jsTsGE_some_iff]
    norm_num
  refine ⟨fun s hs => ((hmem s).1 hs).1, hmem, ?_, ?_, ?_⟩
  · exact pairwise_sortAscBy tsKey _
  · intro s hs
    rcases ((hmem s).1 hs).2 with ⟨t, ht, _⟩
    rw [ht]
    exact fun e => Option.noConfusion e
  · intro hrec
    rw [hrec]
    rfl

/-- Witness for C7 at a concrete input: the empty record set windows to
the empty list. -/
theorem loadScans_window_witness : loadScans 0 24 [] = [] :=
  (loadScans_window 0 24 [] (by decide)).2.2.2.2 rfl

/-! ## C8: fear classifier -/

/-- C8: the function `getFearLevel` computes the level exactly as specified
(`perScan = gold mentions / scanCount` when `scanCount > 0`, else 0;
thresholds 5 / 3 / 1.5), and the concrete example gold = 15 over 5
scans classifies as HIGH. -/
theorem getFearLevel_matches_spec :
    (∀ (c : List MentionEntry) (n : ℕ), (getFearLevel c n).level = fearLevelSpec c n) ∧
    (getFearLevel [⟨"gold", 15⟩] 5).level = "HIGH" := by
  constructor
  · intro c n
    have h32 : (Rat.divInt 3 2 : ℚ) = 3 / 2 := by
      rw [Rat.divInt_eq_div]
      norm_num
    simp only [getFearLevel, fearLevelSpec, jsDiv_eq, h32]
    split_ifs <;> rfl
  · decide

/-! ## C10: independence from `byCategory` -/

/-- C10: the commodity aggregation never depends on the snapshots'
`byCategory` field: two snapshot lists that agree pointwise on
`macroKeywords` and `commodityKeywords` — but differ arbitrarily in
`byCategory` — produce identical `getCommodities` results. -/
theorem getCommodities_independent_of_byCategory (xs ys : List Scan)
    (h : List.Forall₂ (fun a b => a.macroKeywords = b.macroKeywords ∧
      a.commodityKeywords = b.commodityKeywords) xs ys) :
    getCommodities xs = getCommodities ys := by
  have aux : ∀ {as bs : List Scan},
      List.Forall₂ (fun a b => a.macroKeywords = b.macroKeywords ∧
        a.commodityKeywords = b.commodityKeywords) as bs →
      ∀ init : List (String × ℕ), as.foldl commodityStep init = bs.foldl commodityStep init := by
    intro as bs hab
    induction hab with
    | nil => intro init; rfl
    | @cons a b as' bs' hpair htail ih =>
      intro init
      simp only [List.foldl_cons]
      have hstep : commodityStep init a = commodityStep init b := by
        simp only [commodityStep, hpair.1, hpair.2]
      rw [hstep]
      exact ih (commodityStep init b)
  rw [getCommodities, getCommodities, aux h]

/-- Witness for C10 at a concrete input: a snapshot with a populated
`byCategory` and its `byCategory`-free twin aggregate identically. -/
theorem getCommodities_independent_witness :
    getCommodities [scanWithCat] = getCommodities [scanNoCat] :=
  getCommodities_independent_of_byCategory _ _
    (List.Forall₂.cons ⟨rfl, rfl⟩ List.Forall₂.nil)
